import Mathlib

/-!
# Numeric expression evaluation kernel of `sql/item_func.cc`

A shallow embedding of the arithmetic kernel of the scalar-function layer:
type resolution (`Item_num_op::find_num_type`, `Item_func_div::resolve_type`,
`Item_func_neg::resolve_type`), decimal precision/scale propagation
(`result_precision` of the additive, multiplicative, division and modulo
operators), overflow-safe 64-bit integer arithmetic (`Item_func_plus::int_op`,
`Item_func_mod::int_op`, `Item_func_neg::int_op`), the division-by-zero
policy (`Item_func::signal_divide_by_null`), rounding
(`my_double_round`, `Item_func_round::int_op` / `decimal_op`) and structural
equality of expression nodes (`Item_func::eq`).

Modelling conventions:
* 64-bit machine words (`longlong` / `ulonglong`) are carried as their bit
  pattern, a `Nat` below `2 ^ 64`; `toSigned` reads the pattern as the
  two's-complement signed value, `wrap64` reduces an integer back to a
  pattern.  Casts between `longlong` and `ulonglong` are value-preserving on
  patterns, exactly as on the reference platforms.
* IEEE-754 doubles are modelled as exact rationals; the points where the C
  code tests for infinity are modelled by the explicit finite bound of the
  double format.  The concrete values appearing in the claims are such that
  exact-rational evaluation and double evaluation agree on every branch.
* fixed-point decimals (`my_decimal`) are modelled as exact rationals; the
  decimal arithmetic primitives are the external Decimal Collaborator and
  are modelled from the spec's contract (§6), as noted on each definition.
-/

namespace ItemFunc

/-! ## 64-bit integer machinery -/

/-- `2 ^ 64`, the modulus of `ulonglong` arithmetic. -/
def U64 : Nat := 2 ^ 64

/-- Bit pattern of `LLONG_MIN`; also `LLONG_MAX + 1` as an unsigned value. -/
def I64MINbits : Nat := 2 ^ 63

/-- `LLONG_MAX` (`9223372036854775807`). -/
def I64MAX : Nat := 2 ^ 63 - 1

/-- `ULLONG_MAX` (`18446744073709551615`). -/
def U64MAX : Nat := 2 ^ 64 - 1

/-- Two's-complement signed reading of a 64-bit pattern (a `longlong`). -/
def toSigned (b : Nat) : Int := if b < 2 ^ 63 then (b : Int) else (b : Int) - 2 ^ 64

/-- Reduce an integer to the 64-bit pattern it stores into (two's complement). -/
def wrap64 (x : Int) : Nat := (x % (2 ^ 64 : Int)).toNat

/-- A run-time integer operand: the 64-bit pattern returned by `val_int()`
together with the operand's `unsigned_flag`. -/
structure IntOperand where
  bits : Nat
  unsigned : Bool

/-- The mathematical value an operand represents. -/
def IntOperand.value (a : IntOperand) : Int :=
  if a.unsigned then (a.bits : Int) else toSigned a.bits

/-- Mathematical value of a result pattern under a signedness flag. -/
def interp (unsigned : Bool) (bits : Nat) : Int :=
  if unsigned then (bits : Int) else toSigned bits

/-- The integers representable in the 64-bit representation selected by
`unsigned`. -/
def reprIn (unsigned : Bool) (s : Int) : Prop :=
  if unsigned then 0 ≤ s ∧ s < (U64 : Int) else -(2 ^ 63 : Int) ≤ s ∧ s < (2 ^ 63 : Int)

instance (u : Bool) (s : Int) : Decidable (reprIn u s) := by
  unfold reprIn; infer_instance

/-- `test_if_sum_overflows_ull` (item_func.cc:140): the sum of two
`ulonglong`s leaves the `ulonglong` range iff `ULLONG_MAX - arg1 < arg2`. -/
def test_if_sum_overflows_ull (arg1 arg2 : Nat) : Bool :=
  decide (U64MAX - arg1 < arg2)

/-- Modelled from the spec: `Item_func::check_integer_overflow` lives in the
header `item_func.h`, which is not among the sources.  Per §4.2 and the
source comment in `Item_func_plus::int_op` (item_func.cc:1877), the result is
first represented as a `(value, res_unsigned)` pair and then checked for
compatibility with the node's own `unsigned_flag`: a signed-negative value is
incompatible with an unsigned node, and an unsigned value above `LLONG_MAX`
is incompatible with a signed node; incompatibility raises
`IntegerOverflow` (`none`). -/
def check_integer_overflow (node_unsigned : Bool) (bits : Nat) (res_unsigned : Bool) :
    Option Nat :=
  if (node_unsigned && !res_unsigned && decide (toSigned bits < 0)) ||
     (!node_unsigned && res_unsigned && decide ((I64MAX : Nat) < bits)) then none
  else some bits

/-- `Item_func_plus::int_op` (item_func.cc:1867-1925).  `node_unsigned` is the
node's `unsigned_flag`, set to the OR of the operands' flags by
`Item_func_additive_op::result_precision` for integer addition.  `none` is
`raise_integer_overflow`. -/
def plus_int_op (node_unsigned : Bool) (a b : IntOperand) : Option Nat :=
  let val0 := a.bits
  let val1 := b.bits
  let res := (val0 + val1) % U64
  if a.unsigned then
    if b.unsigned || decide (0 ≤ toSigned val1) then
      if test_if_sum_overflows_ull val0 val1 then none
      else check_integer_overflow node_unsigned res true
    else
      check_integer_overflow node_unsigned res (decide ((I64MAX : Nat) < val0))
  else
    if b.unsigned then
      if decide (0 ≤ toSigned val0) then
        if test_if_sum_overflows_ull val0 val1 then none
        else check_integer_overflow node_unsigned res true
      else
        check_integer_overflow node_unsigned res (decide ((I64MAX : Nat) < val1))
    else
      if decide (0 ≤ toSigned val0) && decide (0 ≤ toSigned val1) then
        check_integer_overflow node_unsigned res true
      else if decide (toSigned val0 < 0) && decide (toSigned val1 < 0) &&
              decide (0 ≤ toSigned res) then none
      else check_integer_overflow node_unsigned res false

/-! ## Result-category resolution (`Item_num_op::find_num_type`) -/

/-- The numeric result categories (`Item_result` restricted to the numeric
kinds; `STRING_RESULT` is excluded by the assertion in `find_num_type`). -/
inductive NumCategory where
  | int
  | decimal
  | real
deriving DecidableEq, Fintype

/-- `Item_num_op::find_num_type` (item_func.cc:1212-1251): category promotion
for a binary numeric operator from the operand categories. -/
def find_num_type (r0 r1 : NumCategory) : NumCategory :=
  if r0 = .real ∨ r1 = .real then .real
  else if r0 = .decimal ∨ r1 = .decimal then .decimal
  else .int

/-- The total order Integer < Decimal < Real, written as the spec words it:
the least category at least as large as both operands.  This definition
follows the spec's words (§4.1) to be compared with `find_num_type`. -/
def specPromote (r0 r1 : NumCategory) : NumCategory :=
  let rank : NumCategory → Nat
    | .int => 0
    | .decimal => 1
    | .real => 2
  if rank r0 ≤ rank r1 then r1 else r0

/-! ## Evaluation outcomes, warnings and the division-by-zero policy -/

/-- The only warning kind this kernel attaches itself:
`ER_DIVISION_BY_ZERO`. -/
inductive SqlWarning where
  | divisionByZero
deriving DecidableEq

/-- Outcome of one per-row evaluation of an operator node:
* `error` — a fatal diagnostic was raised (`raise_integer_overflow`,
  `raise_decimal_overflow`, float overflow), aborting the row's evaluation;
* `null ws` — `null_value` was set, with the warnings `ws` attached;
* `value v ws` — a non-Null result `v` with warnings `ws`. -/
inductive OpOut (α : Type) where
  | error
  | null (warnings : List SqlWarning)
  | value (v : α) (warnings : List SqlWarning)
deriving DecidableEq

/-- `Item_func::signal_divide_by_null` (item_func.cc:839-846): sets
`null_value` and pushes an `ER_DIVISION_BY_ZERO` warning iff the session's
`MODE_ERROR_FOR_DIVISION_BY_ZERO` flag (`errDivMode`) is set.  Returns the
warnings pushed; the caller then yields Null. -/
def signal_divide_by_null (errDivMode : Bool) : List SqlWarning :=
  if errDivMode then [SqlWarning.divisionByZero] else []

/-- Status codes of the Decimal Collaborator (`E_DEC_OK`, `E_DEC_TRUNCATED`,
`E_DEC_OVERFLOW`, `E_DEC_DIV_ZERO`). -/
inductive DecStatus where
  | ok
  | truncated
  | overflow
  | divZero
deriving DecidableEq

/-- Modelled from the spec: the numeric `E_DEC_*` codes live in the decimal
library headers, not among the sources; the source tests `err > 3` and
`err == E_DEC_DIV_ZERO`, with `Ok`/`Truncated` non-fatal below the threshold
and `DivisionByZero` above it (§6). -/
def DecStatus.code : DecStatus → Nat
  | .ok => 0
  | .truncated => 1
  | .overflow => 2
  | .divZero => 4

/-- Modelled from the spec: `my_decimal_div` is the external Decimal
Collaborator's division primitive (§6), `div(a,b) -> (Decimal, Status)` with
`Status = DivisionByZero` exactly when the divisor is zero.  Decimals are
modelled as exact rationals; the truncation of the quotient to the result
scale is abstracted away (it never affects the zero-divisor policy). -/
def my_decimal_div (a b : ℚ) : ℚ × DecStatus :=
  if b = 0 then (0, .divZero) else (a / b, .ok)

/-- Modelled from the spec: `my_decimal_mod` is the external Decimal
Collaborator's modulo primitive (§6), with `Status = DivisionByZero` exactly
when the divisor is zero.  The result follows the dividend's sign
(truncating-division convention, §4.2). -/
def my_decimal_mod (a b : ℚ) : ℚ × DecStatus :=
  if b = 0 then (0, .divZero)
  else (a - b * (if 0 ≤ a / b then (⌊a / b⌋ : ℚ) else (⌈a / b⌉ : ℚ)), .ok)

/-- The finite bound of the double format: a real result at or above this
magnitude rounds to infinity (`2^1024 - 2^970` is the overflow threshold of
binary64 round-to-nearest). -/
def DBL_OVERFLOW : ℚ := 2 ^ 1024 - 2 ^ 970

/-- Modelled from the spec: `Item_func::check_float_overflow` lives in
`item_func.h`, not among the sources; a Real result outside the finite
double range raises a fatal overflow error (§7), otherwise the value passes
through unchanged. -/
def check_float_overflow (v : ℚ) : OpOut ℚ :=
  if DBL_OVERFLOW ≤ |v| then .error else .value v []

/-- `fmod` of the C library, modelled exactly on rationals: the remainder of
truncating division, sign following the dividend. -/
def fmodQ (a b : ℚ) : ℚ :=
  a - b * (if 0 ≤ a / b then (⌊a / b⌋ : ℚ) else (⌈a / b⌉ : ℚ))

/-- `Item_func_div::real_op` (item_func.cc:2235-2248).  The operands are the
already-evaluated argument doubles (`none` = the argument was Null). -/
def div_real_op (errDivMode : Bool) (x y : Option ℚ) : OpOut ℚ :=
  match x, y with
  | some v, some w =>
      if w = 0 then .null (signal_divide_by_null errDivMode)
      else check_float_overflow (v / w)
  | _, _ => .null []

/-- `Item_func_div::decimal_op` (item_func.cc:2251-2276): division through
the Decimal Collaborator with `E_DEC_OVERFLOW` and `E_DEC_DIV_ZERO` masked
out of the fatal set; a status above 3 is `E_DEC_DIV_ZERO` (overflow having
been turned into a fatal error by `check_decimal_overflow`), which invokes
`signal_divide_by_null` and yields Null. -/
def div_decimal_op (errDivMode : Bool) (x y : Option ℚ) : OpOut ℚ :=
  match x, y with
  | some v, some w =>
      let r := my_decimal_div v w
      if r.2 = .overflow then .error
      else if 3 < r.2.code then
        if r.2 = .divZero then .null (signal_divide_by_null errDivMode)
        else .null []
      else .value r.1 []
  | _, _ => .null []

/-- `Item_func_mod::real_op` (item_func.cc:2455-2468). -/
def mod_real_op (errDivMode : Bool) (x y : Option ℚ) : OpOut ℚ :=
  match x, y with
  | some v, some w =>
      if w = 0 then .null (signal_divide_by_null errDivMode)
      else .value (fmodQ v w) []
  | _, _ => .null []

/-- `Item_func_mod::decimal_op` (item_func.cc:2471-2493). -/
def mod_decimal_op (errDivMode : Bool) (x y : Option ℚ) : OpOut ℚ :=
  match x, y with
  | some v, some w =>
      let r := my_decimal_mod v w
      match r.2 with
      | .truncated => .value r.1 []
      | .ok => .value r.1 []
      | .divZero => .null (signal_divide_by_null errDivMode)
      | .overflow => .null []
  | _, _ => .null []

/-- `Item_func_mod::int_op` (item_func.cc:2424-2453): the `%` computed on
unsigned magnitudes (so that `LLONG_MIN % -1` never executes a native signed
division), sign restored from the dividend.  The node's `unsigned_flag` is
`args[0]->unsigned_flag` (`Item_func_mod::resolve_type`, item_func.cc:2515).
The operands are `none` when the argument evaluated to Null. -/
def mod_int_op (errDivMode : Bool) (a b : Option IntOperand) : OpOut Nat :=
  match a, b with
  | some x, some y =>
      if y.bits = 0 then .null (signal_divide_by_null errDivMode)
      else
        let val0_negative := !x.unsigned && decide (toSigned x.bits < 0)
        let val1_negative := !y.unsigned && decide (toSigned y.bits < 0)
        let uval0 := if val0_negative && decide (x.bits ≠ I64MINbits)
                     then wrap64 (-(toSigned x.bits)) else x.bits
        let uval1 := if val1_negative && decide (y.bits ≠ I64MINbits)
                     then wrap64 (-(toSigned y.bits)) else y.bits
        let res := uval0 % uval1
        match check_integer_overflow x.unsigned
                (if val0_negative then wrap64 (-(res : Int)) else res)
                (!val0_negative) with
        | none => .error
        | some r => .value r []
  | _, _ => .null []

/-- The integer branch of `Item_func_int_div::val_int` (item_func.cc:2380-
2405): pure-integer `DIV` through unsigned magnitudes.  `node_unsigned` is
`args[0]->unsigned_flag | args[1]->unsigned_flag`
(`Item_func_int_div::resolve_type`, item_func.cc:2419). -/
def int_div_int_op (errDivMode : Bool) (node_unsigned : Bool) (a b : Option IntOperand) :
    OpOut Nat :=
  match a, b with
  | some x, some y =>
      if y.bits = 0 then .null (signal_divide_by_null errDivMode)
      else
        let val0_negative := !x.unsigned && decide (toSigned x.bits < 0)
        let val1_negative := !y.unsigned && decide (toSigned y.bits < 0)
        let res_negative := val0_negative != val1_negative
        let uval0 := if val0_negative && decide (x.bits ≠ I64MINbits)
                     then wrap64 (-(toSigned x.bits)) else x.bits
        let uval1 := if val1_negative && decide (y.bits ≠ I64MINbits)
                     then wrap64 (-(toSigned y.bits)) else y.bits
        let res := uval0 / uval1
        if res_negative then
          if decide ((I64MAX : Nat) < res) then .error
          else
            match check_integer_overflow node_unsigned (wrap64 (-(res : Int))) false with
            | none => .error
            | some r => .value r []
        else
          match check_integer_overflow node_unsigned res true with
          | none => .error
          | some r => .value r []
  | _, _ => .null []

/-! ## Decimal precision/scale propagation -/

/-- `DECIMAL_MAX_PRECISION` (65). -/
def DECIMAL_MAX_PRECISION : Nat := 65

/-- `DECIMAL_MAX_SCALE` (30). -/
def DECIMAL_MAX_SCALE : Nat := 30

/-- Modelled from the spec: `my_decimal_precision_to_length_no_truncation`
is declared in `my_decimal.h`, not among the sources.  A decimal of
`precision` digits with positive `scale` needs one extra character for the
decimal point and, when signed and nonempty, one for the sign. -/
def my_decimal_precision_to_length_no_truncation (precision scale : Nat)
    (unsigned : Bool) : Nat :=
  precision + (if 0 < scale then 1 else 0) +
    (if unsigned = true ∨ precision = 0 then 0 else 1)

/-- Modelled from the spec: `my_decimal_length_to_precision`
(`my_decimal.h`, not among the sources), the inverse of the previous
conversion. -/
def my_decimal_length_to_precision (length scale : Nat) (unsigned : Bool) : Nat :=
  length - (if 0 < scale then 1 else 0) -
    (if unsigned = true ∨ length = 0 then 0 else 1)

/-- The descriptor fields an `Item` stores after resolution: `max_length`,
`decimals` (the scale) and `unsigned_flag`. -/
structure DecDescr where
  max_length : Nat
  decimals : Nat
  unsigned : Bool

/-- Modelled from the spec: `Item::decimal_precision` lives in `item.cc`,
which is not among the sources.  It reads the precision back from
`max_length` and saturates it at `MAX_PRECISION` (§3's invariant
`precision ≤ MAX_PRECISION(65)` together with §4.3's saturation
requirement). -/
def DecDescr.precision (d : DecDescr) : Nat :=
  min (my_decimal_length_to_precision d.max_length d.decimals d.unsigned)
    DECIMAL_MAX_PRECISION

/-- Build a well-formed operand descriptor from a precision and scale. -/
def DecDescr.ofPrec (precision scale : Nat) (unsigned : Bool) : DecDescr :=
  { max_length := my_decimal_precision_to_length_no_truncation precision scale unsigned
    decimals := scale
    unsigned := unsigned }

/-- `Item_func_additive_op::result_precision` (item_func.cc:1958-1972), the
`DECIMAL_RESULT` case (so `unsigned_flag` is the AND of the operand flags):
`scale = max(s1,s2)`, `precision = max(p1-s1, p2-s2) + 1 + scale`, stored
through the length conversion. -/
def additive_result_precision (a0 a1 : DecDescr) : DecDescr :=
  let decimals := max a0.decimals a1.decimals
  let arg1_int : Int := (a0.precision : Int) - (a0.decimals : Int)
  let arg2_int : Int := (a1.precision : Int) - (a1.decimals : Int)
  let precision : Int := max arg1_int arg2_int + 1 + (decimals : Int)
  let unsigned := a0.unsigned && a1.unsigned
  { max_length :=
      my_decimal_precision_to_length_no_truncation precision.toNat decimals unsigned
    decimals := decimals
    unsigned := unsigned }

/-- `Item_func_mul::result_precision` (item_func.cc:2220-2232), the
`DECIMAL_RESULT` case: `scale = min(s1+s2, 30)`,
`precision = min(p1+p2, 65)`. -/
def mul_result_precision (a0 a1 : DecDescr) : DecDescr :=
  let unsigned := a0.unsigned && a1.unsigned
  let decimals := min (a0.decimals + a1.decimals) DECIMAL_MAX_SCALE
  let est_prec := a0.precision + a1.precision
  let precision := min est_prec DECIMAL_MAX_PRECISION
  { max_length :=
      my_decimal_precision_to_length_no_truncation precision decimals unsigned
    decimals := decimals
    unsigned := unsigned }

/-- `Item_func_div::result_precision` (item_func.cc:2279-2296), the
`DECIMAL_RESULT` case: `precision = min(p1 + s2 + prec_increment, 65)`,
`scale = min(s1 + prec_increment, 30)`, with `prec_increment` the session's
`div_precincrement` (`Item_func_div::resolve_type`, item_func.cc:2302). -/
def div_result_precision (a0 a1 : DecDescr) (prec_increment : Nat) : DecDescr :=
  let precision :=
    min (a0.precision + a1.decimals + prec_increment) DECIMAL_MAX_PRECISION
  let unsigned := a0.unsigned && a1.unsigned
  let decimals := min (a0.decimals + prec_increment) DECIMAL_MAX_SCALE
  { max_length :=
      my_decimal_precision_to_length_no_truncation precision decimals unsigned
    decimals := decimals
    unsigned := unsigned }

/-- `Item_func_mod::result_precision` (item_func.cc:2496-2507) followed by
the `unsigned_flag` assignment of `Item_func_mod::resolve_type`
(item_func.cc:2515): `scale = max(s1,s2)`, `max_length = max(ml1,ml2)`, with
the documented `+1` width growth when a signed operand is taken modulo an
unsigned operand of no smaller length whose scale equals its precision. -/
def mod_result_precision (a0 a1 : DecDescr) : DecDescr :=
  let decimals := max a0.decimals a1.decimals
  let base := max a0.max_length a1.max_length
  let max_length :=
    if !a0.unsigned && a1.unsigned && decide (a0.max_length ≤ a1.max_length) &&
       decide (a1.decimals = a1.precision)
    then base + 1 else base
  { max_length := max_length
    decimals := decimals
    unsigned := a0.unsigned }

/-- The category part of `Item_func_div::resolve_type`
(item_func.cc:2299-2334): after `Item_num_op::resolve_type` has run
`find_num_type`, an `INT_RESULT` hybrid type is changed to
`DECIMAL_RESULT`; `REAL_RESULT` and `DECIMAL_RESULT` are kept. -/
def div_resolve_category (r0 r1 : NumCategory) : NumCategory :=
  match find_num_type r0 r1 with
  | .real => .real
  | .int => .decimal
  | .decimal => .decimal

/-! ## Negation (`Item_func_neg`) -/

/-- The static information about the single operand of a `Negate` node that
`Item_func_neg::resolve_type` and the evaluation functions inspect:
its resolved category, whether it is a constant (`const_item()`), the 64-bit
pattern `val_int()` yields, its `unsigned_flag`, and whether the node is an
integer literal (`type() == INT_ITEM`). -/
structure NegOperand where
  category : NumCategory
  isConst : Bool
  bits : Nat
  unsigned : Bool
  isIntItem : Bool

/-- `Item_func_neg::resolve_type` (item_func.cc:2572-2600): starting from
the operand's category (`Item_func_num1::find_num_type`), an integer-context
constant whose `ulonglong` pattern is at least `LLONG_MIN`'s is promoted to
`DECIMAL_RESULT` — except the exact `LLONG_MIN` pattern on an `INT_ITEM`
literal, which stays Integer.  The node's `unsigned_flag` is cleared. -/
def neg_resolve_category (arg : NegOperand) : NumCategory :=
  if arg.category = .int ∧ arg.isConst then
    if I64MINbits ≤ arg.bits ∧ (arg.bits ≠ I64MINbits ∨ arg.isIntItem = false) then
      .decimal
    else .int
  else arg.category

/-- `Item_func_neg::int_op` (item_func.cc:2528-2548).  `node_unsigned` is the
node's `unsigned_flag` (cleared to `false` by `resolve_type`).  `none` is
`raise_integer_overflow`. -/
def neg_int_op (node_unsigned : Bool) (arg : NegOperand) : Option Nat :=
  let value := arg.bits
  if arg.unsigned && decide ((I64MINbits : Nat) < value) then none
  else if decide (value = I64MINbits) && !arg.unsigned && !node_unsigned then none
  else if decide (value = I64MINbits) && arg.unsigned && !node_unsigned then
    some I64MINbits
  else
    check_integer_overflow node_unsigned (wrap64 (-(toSigned value)))
      (!arg.unsigned && decide (toSigned value < 0))

/-- `Item_func_neg::decimal_op` (item_func.cc:2551-2561): exact negation
through `my_decimal_neg`, decimals modelled as exact rationals. -/
def neg_decimal_op (x : ℚ) : ℚ := -x

/-! ## Rounding and truncation -/

/-- The C library's `rint` under the default rounding mode
(`FE_TONEAREST`): round to the nearest integer, ties to the even one. -/
def rint (q : ℚ) : Int :=
  let f := ⌊q⌋
  let r := q - (f : ℚ)
  if r < 1 / 2 then f
  else if 1 / 2 < r then f + 1
  else if f % 2 = 0 then f else f + 1

/-- `my_double_round` (item_func.cc:3454-3490), doubles modelled as exact
rationals.  `dec` is the signed value of the `longlong` decimals argument.
The `log_10` table has 309 entries (`1e0 .. 1e308`), so `isinf(tmp)` holds
exactly when `309 ≤ abs_dec`; `isinf/isnan(value * tmp)` holds when `tmp` is
infinite or the product reaches the double overflow threshold.  The
`volatile` temporaries only force strict double rounding and have no
rational counterpart. -/
def my_double_round (value : ℚ) (dec : Int) (dec_unsigned truncate : Bool) : ℚ :=
  let dec_negative := decide (dec < 0) && !dec_unsigned
  let abs_dec : Nat :=
    (if dec_negative then -dec else if dec < 0 then dec + 2 ^ 64 else dec).toNat
  let tmp : ℚ := 10 ^ abs_dec
  let value_div_tmp := value / tmp
  let value_mul_tmp := value * tmp
  if dec_negative ∧ 309 ≤ abs_dec then 0
  else if ¬(dec_negative = true) ∧ (309 ≤ abs_dec ∨ DBL_OVERFLOW ≤ |value_mul_tmp|) then
    value
  else if truncate then
    if 0 ≤ value then
      if dec < 0 then (⌊value_div_tmp⌋ : ℚ) * tmp else (⌊value_mul_tmp⌋ : ℚ) / tmp
    else
      if dec < 0 then (⌈value_div_tmp⌉ : ℚ) * tmp else (⌈value_mul_tmp⌉ : ℚ) / tmp
  else
    if dec < 0 then (rint value_div_tmp : ℚ) * tmp else (rint value_mul_tmp : ℚ) / tmp

/-- `Item_func_round::real_op` (item_func.cc:3493-3503): delegates to
`my_double_round` with the node's `truncate` flag. -/
def round_real_op (value : ℚ) (dec : Int) (dec_unsigned truncate : Bool) : ℚ :=
  my_double_round value dec dec_unsigned truncate

/-- `my_unsigned_round` (item_func.cc:3510-3514): round a `ulonglong` to a
power of ten, in `ulonglong` (mod `2^64`) arithmetic. -/
def my_unsigned_round (value toTen : Nat) : Nat :=
  let tmp := value / toTen * toTen
  if value - tmp < toTen / 2 then tmp else (tmp + toTen) % U64

/-- `Item_func_round::int_op` (item_func.cc:3517-3544).  `node_unsigned` is
the node's `unsigned_flag`, which `Item_func_round::resolve_type` copies
from the first argument (item_func.cc:3379).  `vbits` is the first
argument's 64-bit pattern, `dec` the signed value of the second argument and
`dec_unsigned` its `unsigned_flag`.  The `log_10_int` table has 20 entries
(`10^0 .. 10^19`).  Signed division and the final stores wrap through the
64-bit pattern. -/
def round_int_op (node_unsigned truncate : Bool) (vbits : Nat) (dec : Int)
    (dec_unsigned : Bool) : Nat :=
  if 0 ≤ dec ∨ dec_unsigned = true then vbits
  else
    let abs_dec := (-dec).toNat
    if 20 ≤ abs_dec then 0
    else
      let tmp : Nat := 10 ^ abs_dec
      if truncate then
        if node_unsigned then vbits / tmp * tmp
        else wrap64 (Int.tdiv (toSigned vbits) (tmp : Int) * (tmp : Int))
      else
        if node_unsigned || decide (0 ≤ toSigned vbits) then
          my_unsigned_round vbits tmp
        else
          wrap64 (-(toSigned (my_unsigned_round (wrap64 (-(toSigned vbits))) tmp)))

/-- Modelled from the spec: `my_decimal_round` is the external Decimal
Collaborator's rounding primitive (§6), with the same truncate flag: taking
`t = 10^dec`, truncation discards digits toward zero and rounding applies
round-half-away-from-zero (glossary).  Decimals modelled as exact
rationals. -/
def my_decimal_round_q (x : ℚ) (dec : Int) (truncate : Bool) : ℚ :=
  let t : ℚ := 10 ^ dec
  if truncate then
    if 0 ≤ x then (⌊x * t⌋ : ℚ) / t else (⌈x * t⌉ : ℚ) / t
  else
    if 0 ≤ x then (⌊x * t + 1 / 2⌋ : ℚ) / t else (⌈x * t - 1 / 2⌉ : ℚ) / t

/-- `Item_func_round::decimal_op` (item_func.cc:3547-3561): the requested
decimals count is clamped — a non-negative or unsigned count through
`min<ulonglong>(dec, decimals)` against the node's resolved scale
(`node_decimals`), a negative count below `INT_MIN` up to `INT_MIN` — before
delegating to the collaborator's round. -/
def round_decimal_op (node_decimals : Nat) (x : ℚ) (dec : Int)
    (dec_unsigned truncate : Bool) : ℚ :=
  let decClamped : Int :=
    if 0 ≤ dec ∨ dec_unsigned = true then
      min (if dec < 0 then dec + 2 ^ 64 else dec) (node_decimals : Int)
    else if dec < -(2 ^ 31 : Int) then -(2 ^ 31 : Int) else dec
  my_decimal_round_q x decClamped truncate

/-- The no-wraparound margin under which integer rounding is lossless:
the requested decimals count is non-negative (or read as unsigned), or at
least 20 so the rounding short-circuits to 0, or the operand's magnitude is
at least `10^|dec|` away from the boundary of its 64-bit range. -/
def RoundIntSafe (node_unsigned : Bool) (vbits : Nat) (dec : Int)
    (dec_unsigned : Bool) : Prop :=
  0 ≤ dec ∨ dec_unsigned = true ∨ 20 ≤ (-dec).toNat ∨
    (if node_unsigned = true then vbits + 10 ^ (-dec).toNat < 2 ^ 64
     else (if vbits < 2 ^ 63 then vbits else 2 ^ 64 - vbits) + 10 ^ (-dec).toNat < 2 ^ 63)

/-! ## Structural equality of expression nodes (`Item_func::eq`) -/

/-- The operator kinds of the arithmetic kernel. -/
inductive FuncKind where
  | plus
  | minus
  | mul
  | div
  | intDiv
  | mod
  | neg
  | abs
  | ceiling
  | floor
  | round
  | truncateF
deriving DecidableEq, Fintype

/-- `Item_func::functype()`: none of the arithmetic operator classes
overrides the default, so they all report `UNKNOWN_FUNC`; the enum is kept
open-ended through a `Nat` code. -/
def FuncKind.functype : FuncKind → Nat
  | _ => 0

/-- `func_name()` of each operator class.  The name comparison in
`Item_func::eq` is a pointer comparison of string literals; identical
literals (such as the `"-"` of `Item_func_minus` and `Item_func_neg`) may be
merged by the toolchain, so string equality is the faithful (conservative)
model. -/
def FuncKind.funcName : FuncKind → String
  | .plus => "+"
  | .minus => "-"
  | .mul => "*"
  | .div => "/"
  | .intDiv => "DIV"
  | .mod => "%"
  | .neg => "-"
  | .abs => "abs"
  | .ceiling => "ceiling"
  | .floor => "floor"
  | .round => "round"
  | .truncateF => "truncate"

/-- The number of child nodes each operator class is built with. -/
def FuncKind.arity : FuncKind → Nat
  | .plus => 2
  | .minus => 2
  | .mul => 2
  | .div => 2
  | .intDiv => 2
  | .mod => 2
  | .neg => 1
  | .abs => 1
  | .ceiling => 1
  | .floor => 1
  | .round => 2
  | .truncateF => 2

/-- An expression tree: an integer literal leaf (`Item_int`, `INT_ITEM`) or
an operator node (`Item_func`, `FUNC_ITEM`) owning its ordered children. -/
inductive Expr where
  | intLit (bits : Nat) (unsigned : Bool)
  | func (k : FuncKind) (args : List Expr)

/-- `Item_func::eq` (item_func.cc:566-586): same `functype()`, same
`arg_count`, same `func_name()` and pairwise-equal children; a non-function
item never equals a function item.  The leaf comparison (`Item_int::eq`,
`item.cc`, not among the sources) is modelled from the spec as structural
equality of the literal.  The physical-identity shortcut `this == item` is
dropped: the claims compare independently built nodes, and an aliased node
is trivially structurally equal to itself. -/
def exprEq : Expr → Expr → Bool
  | .intLit v u, .intLit v' u' => v == v' && u == u'
  | .func k xs, .func k' ys =>
      k.functype == k'.functype && xs.length == ys.length &&
        k.funcName == k'.funcName && goList xs ys
  | _, _ => false
where
  /-- the `for (uint i=0; i < arg_count; i++)` child loop -/
  goList : List Expr → List Expr → Bool
  | [], [] => true
  | x :: xs, y :: ys => exprEq x y && goList xs ys
  | _, _ => false

/-- Well-formed operator nodes carry exactly `arity` children. -/
def wfArgs (k : FuncKind) (xs : List Expr) : Prop := xs.length = k.arity

/-! ## Helper lemmas -/

/-- The two length/precision conversions are mutually inverse (in saturating
natural arithmetic) for every precision, scale and signedness. -/
theorem length_precision_roundtrip (p s : Nat) (u : Bool) :
    my_decimal_length_to_precision
      (my_decimal_precision_to_length_no_truncation p s u) s u = p := by
  unfold my_decimal_length_to_precision my_decimal_precision_to_length_no_truncation
  cases u <;> split_ifs <;> simp_all

/-- The stored precision of a descriptor built from a precision and scale. -/
theorem ofPrec_precision (p s : Nat) (u : Bool) :
    (DecDescr.ofPrec p s u).precision = min p DECIMAL_MAX_PRECISION := by
  simp [DecDescr.ofPrec, DecDescr.precision, length_precision_roundtrip]

/-! ## Claims -/

/-- C5: for every binary arithmetic operator and every pair of operand
categories, `Item_num_op::find_num_type` resolves the result category along
the total order Real > Decimal > Integer — if either operand is Real the
result is Real, otherwise if either is Decimal the result is Decimal
(independently of any scale), otherwise Integer — and the rule is symmetric
in the two operands. -/
theorem C5_find_num_type_total_order :
    ∀ r0 r1 : NumCategory,
      find_num_type r0 r1 = specPromote r0 r1 ∧
      find_num_type r0 r1 = find_num_type r1 r0 := by decide

/-- C6: for every pair of operand descriptors and every session
`precision_increment`, `Item_func_div::result_precision` yields
`scale = min(s1 + precision_increment, 30)` and
`precision = min(p1 + s2 + precision_increment, 65)`; and
`Item_func_div::resolve_type` changes an Integer/Integer hybrid type to
Decimal. -/
theorem C6_div_precision_scale_formula :
    ∀ (a0 a1 : DecDescr) (inc : Nat),
      (div_result_precision a0 a1 inc).decimals =
        min (a0.decimals + inc) DECIMAL_MAX_SCALE ∧
      (div_result_precision a0 a1 inc).precision =
        min (a0.precision + a1.decimals + inc) DECIMAL_MAX_PRECISION ∧
      div_resolve_category .int .int = .decimal := by
  intro a0 a1 inc
  refine ⟨rfl, ?_, rfl⟩
  show (DecDescr.ofPrec _ _ _).precision = _
  rw [ofPrec_precision]
  simp only [DECIMAL_MAX_PRECISION]
  omega

/-- C10: integer Modulo of the signed dividend `i64::MIN` (pattern `2^63`)
by the signed divisor `-1` (pattern `2^64 - 1`) evaluates, via unsigned
magnitudes, to the value 0 — no error, no overflow signal, no warning —
under either setting of the division-by-zero mode flag. -/
theorem C10_mod_min_by_minus_one :
    ∀ errDivMode : Bool,
      mod_int_op errDivMode (some ⟨I64MINbits, false⟩) (some ⟨U64MAX, false⟩) =
        OpOut.value 0 [] := by decide

/-- C1: every Divide or Modulo evaluation — Real, Decimal or Integer — whose
divisor evaluates to exact zero yields Null (never a statement-aborting
error) and attaches an `ER_DIVISION_BY_ZERO` warning exactly when the
session's error-for-division-by-zero mode flag is set; the Null result is
the same either way. -/
theorem C1_divide_modulo_by_zero_yields_null :
    ∀ (flag : Bool) (x : ℚ) (a : IntOperand) (u nu : Bool),
      div_real_op flag (some x) (some 0) =
        OpOut.null (if flag then [SqlWarning.divisionByZero] else []) ∧
      div_decimal_op flag (some x) (some 0) =
        OpOut.null (if flag then [SqlWarning.divisionByZero] else []) ∧
      mod_real_op flag (some x) (some 0) =
        OpOut.null (if flag then [SqlWarning.divisionByZero] else []) ∧
      mod_decimal_op flag (some x) (some 0) =
        OpOut.null (if flag then [SqlWarning.divisionByZero] else []) ∧
      mod_int_op flag (some a) (some ⟨0, u⟩) =
        OpOut.null (if flag then [SqlWarning.divisionByZero] else []) ∧
      int_div_int_op flag nu (some a) (some ⟨0, u⟩) =
        OpOut.null (if flag then [SqlWarning.divisionByZero] else []) := by
  intro flag x a u nu
  refine ⟨?_, ?_, ?_, ?_, ?_, ?_⟩ <;>
    simp [div_real_op, div_decimal_op, mod_real_op, mod_decimal_op,
      mod_int_op, int_div_int_op, my_decimal_div, my_decimal_mod,
      signal_divide_by_null, DecStatus.code]

/-- C3: for every pair of operand descriptors with scales within bounds —
including both at the maxima `precision = 65`, `scale = 30` — each Decimal
propagation formula (Add/Subtract, Multiply, Divide, Modulo) produces a
descriptor whose stored precision is at most 65 and whose scale is at most
30: the computations saturate at the maxima. -/
theorem C3_precision_scale_saturate (a0 a1 : DecDescr) (inc : Nat)
    (h0 : a0.decimals ≤ DECIMAL_MAX_SCALE) (h1 : a1.decimals ≤ DECIMAL_MAX_SCALE) :
    ((additive_result_precision a0 a1).precision ≤ 65 ∧
      (additive_result_precision a0 a1).decimals ≤ 30) ∧
    ((mul_result_precision a0 a1).precision ≤ 65 ∧
      (mul_result_precision a0 a1).decimals ≤ 30) ∧
    ((div_result_precision a0 a1 inc).precision ≤ 65 ∧
      (div_result_precision a0 a1 inc).decimals ≤ 30) ∧
    ((mod_result_precision a0 a1).precision ≤ 65 ∧
      (mod_result_precision a0 a1).decimals ≤ 30) := by
  simp only [DECIMAL_MAX_SCALE] at h0 h1
  refine ⟨⟨?_, ?_⟩, ⟨?_, ?_⟩, ⟨?_, ?_⟩, ⟨?_, ?_⟩⟩ <;>
    first
      | exact min_le_right _ _
      | (simp only [additive_result_precision, mul_result_precision,
          div_result_precision, mod_result_precision, DecDescr.precision,
          DECIMAL_MAX_PRECISION, DECIMAL_MAX_SCALE]
         omega)

/-- Witness for C3 at the maximal descriptors `precision = 65`,
`scale = 30`. -/
theorem C3_precision_scale_saturate_witness :
    (DecDescr.ofPrec 65 30 false).decimals ≤ DECIMAL_MAX_SCALE ∧
    (((additive_result_precision (DecDescr.ofPrec 65 30 false)
          (DecDescr.ofPrec 65 30 true)).precision ≤ 65 ∧
        (additive_result_precision (DecDescr.ofPrec 65 30 false)
          (DecDescr.ofPrec 65 30 true)).decimals ≤ 30) ∧
      ((mul_result_precision (DecDescr.ofPrec 65 30 false)
          (DecDescr.ofPrec 65 30 true)).precision ≤ 65 ∧
        (mul_result_precision (DecDescr.ofPrec 65 30 false)
          (DecDescr.ofPrec 65 30 true)).decimals ≤ 30) ∧
      ((div_result_precision (DecDescr.ofPrec 65 30 false)
          (DecDescr.ofPrec 65 30 true) 4).precision ≤ 65 ∧
        (div_result_precision (DecDescr.ofPrec 65 30 false)
          (DecDescr.ofPrec 65 30 true) 4).decimals ≤ 30) ∧
      ((mod_result_precision (DecDescr.ofPrec 65 30 false)
          (DecDescr.ofPrec 65 30 true)).precision ≤ 65 ∧
        (mod_result_precision (DecDescr.ofPrec 65 30 false)
          (DecDescr.ofPrec 65 30 true)).decimals ≤ 30)) :=
  ⟨by decide,
    C3_precision_scale_saturate (DecDescr.ofPrec 65 30 false)
      (DecDescr.ofPrec 65 30 true) 4 (by decide) (by decide)⟩

/-- C4 counterexample: a `Negate` node whose operand is the statically-known
signed constant `i64::MIN` but is an integer literal (`INT_ITEM`) is *not*
promoted to Decimal — its category stays Integer — and its integer
evaluation raises `IntegerOverflow` instead of producing
`9223372036854775808`. -/
theorem C4_counterexample :
    neg_resolve_category ⟨.int, true, 2 ^ 63, false, true⟩ = NumCategory.int ∧
    neg_int_op false ⟨.int, true, 2 ^ 63, false, true⟩ = none := by decide

/-- C4 (amended): for a `Negate` node whose operand resolves to Integer and
is a statically-known constant with value `i64::MIN` (`unsigned = false`)
*that is not an integer-literal (`INT_ITEM`) node*, resolution promotes the
result category to Decimal, and the subsequent decimal evaluation yields
exactly `9223372036854775808`. -/
theorem C4_neg_min_promoted_to_decimal (arg : NegOperand)
    (hcat : arg.category = NumCategory.int) (hconst : arg.isConst = true)
    (hbits : arg.bits = 2 ^ 63) (hu : arg.unsigned = false)
    (hlit : arg.isIntItem = false) :
    neg_resolve_category arg = NumCategory.decimal ∧
    neg_decimal_op ((toSigned arg.bits : Int) : ℚ) =
      ((9223372036854775808 : Nat) : ℚ) := by
  obtain ⟨c, k, b, u, i⟩ := arg
  simp only at hcat hconst hbits hu hlit
  subst hcat hconst hbits hu hlit
  constructor
  · simp [neg_resolve_category, I64MINbits]
  · have : toSigned (2 ^ 63) = -(2 ^ 63 : Int) := by decide
    rw [neg_decimal_op, this]
    norm_num

/-- Witness for C4 at a non-literal constant operand. -/
theorem C4_neg_min_promoted_to_decimal_witness :
    neg_resolve_category ⟨.int, true, 2 ^ 63, false, false⟩ = NumCategory.decimal ∧
    neg_decimal_op ((toSigned (NegOperand.bits ⟨.int, true, 2 ^ 63, false, false⟩) : Int) : ℚ) =
      ((9223372036854775808 : Nat) : ℚ) :=
  C4_neg_min_promoted_to_decimal ⟨.int, true, 2 ^ 63, false, false⟩
    rfl rfl rfl rfl rfl

/-- C7 counterexample: `Round` on the Real (double) value `2.5` with
`decimals = 0` and `truncate = false` evaluates to `2`, not `3`:
`my_double_round` rounds through the C library's `rint`, which under the
default rounding mode resolves ties to the even neighbour. -/
theorem C7_counterexample :
    my_double_round (5 / 2) 0 false false = 2 ∧
    ¬ my_double_round (5 / 2) 0 false false = 3 := by
  have h : my_double_round (5 / 2) 0 false false = 2 := by
    norm_num [my_double_round, rint, DBL_OVERFLOW, abs_lt]
  exact ⟨h, by rw [h]; norm_num⟩

/-- The child loop of `Item_func::eq` accepts two child lists exactly when
they are pairwise structurally equal. -/
theorem goList_iff_forall₂ (xs ys : List Expr) :
    exprEq.goList xs ys = true ↔
      List.Forall₂ (fun x y => exprEq x y = true) xs ys := by
  induction xs generalizing ys with
  | nil => cases ys <;> simp [exprEq.goList]
  | cons x xs ih => cases ys <;> simp [exprEq.goList, ih]

/-- Two distinct operator kinds of equal arity never share a
`func_name`. -/
theorem funcName_separates :
    ∀ k k' : FuncKind, k ≠ k' → k.arity = k'.arity → k.funcName ≠ k'.funcName := by
  decide

/-- C9: structural equality of expression nodes (`Item_func::eq`) — two
independently built operator nodes of the same kind compare equal exactly
when their children are pairwise structurally equal; nodes of differing
operator kind never compare equal; and nodes with differing numbers of
children never compare equal. -/
theorem C9_structural_node_equality :
    (∀ (k : FuncKind) (xs ys : List Expr), wfArgs k xs → wfArgs k ys →
        (exprEq (.func k xs) (.func k ys) = true ↔
          List.Forall₂ (fun x y => exprEq x y = true) xs ys)) ∧
    (∀ (k k' : FuncKind) (xs ys : List Expr), wfArgs k xs → wfArgs k' ys →
        k ≠ k' → exprEq (.func k xs) (.func k' ys) = false) ∧
    (∀ (k k' : FuncKind) (xs ys : List Expr), xs.length ≠ ys.length →
        exprEq (.func k xs) (.func k' ys) = false) := by
  have hlen3 : ∀ (k k' : FuncKind) (xs ys : List Expr), xs.length ≠ ys.length →
      exprEq (.func k xs) (.func k' ys) = false := by
    intro k k' xs ys hne
    simp [exprEq, hne]
  refine ⟨?_, ?_, hlen3⟩
  · intro k xs ys hx hy
    have hlen : xs.length = ys.length := by
      rw [show xs.length = k.arity from hx, show ys.length = k.arity from hy]
    simp [exprEq, hlen, goList_iff_forall₂]
  · intro k k' xs ys hx hy hne
    by_cases ha : k.arity = k'.arity
    · have hn := funcName_separates k k' hne ha
      simp [exprEq, hn]
    · exact hlen3 k k' xs ys (by
        rw [show xs.length = k.arity from hx, show ys.length = k'.arity from hy]
        exact ha)

/-- Witness for C9 at two independently built `plus` nodes over literal
children, and at a `plus` versus `mul` node. -/
theorem C9_structural_node_equality_witness :
    wfArgs .plus [Expr.intLit 1 false, Expr.intLit 2 false] ∧
    (exprEq (.func .plus [Expr.intLit 1 false, Expr.intLit 2 false])
        (.func .plus [Expr.intLit 1 false, Expr.intLit 2 false]) = true ↔
      List.Forall₂ (fun x y => exprEq x y = true)
        [Expr.intLit 1 false, Expr.intLit 2 false]
        [Expr.intLit 1 false, Expr.intLit 2 false]) ∧
    exprEq (.func .plus [Expr.intLit 1 false, Expr.intLit 2 false])
      (.func .mul [Expr.intLit 1 false, Expr.intLit 2 false]) = false :=
  ⟨rfl,
    C9_structural_node_equality.1 .plus
      [Expr.intLit 1 false, Expr.intLit 2 false]
      [Expr.intLit 1 false, Expr.intLit 2 false] rfl rfl,
    C9_structural_node_equality.2.1 .plus .mul
      [Expr.intLit 1 false, Expr.intLit 2 false]
      [Expr.intLit 1 false, Expr.intLit 2 false] rfl rfl (by decide)⟩

set_option maxHeartbeats 1000000 in
/-- C2: integer `Add` over every pair of 64-bit operands (each tagged
signed or unsigned) reports `IntegerOverflow` exactly when the mathematical
sum is not representable in the result's `(value, unsigned)` representation
(the node's `unsigned_flag` being the OR of the operands'), and otherwise
returns a pattern representing the exact sum; in particular
`Add(i64::MAX, 1)` on signed operands overflows, and `Add(u64::MAX, 0)` on
unsigned operands returns `u64::MAX` without overflow. -/
theorem C2_plus_int_op_overflow_iff :
    (∀ a b : IntOperand, a.bits < U64 → b.bits < U64 →
        ((plus_int_op (a.unsigned || b.unsigned) a b = none ↔
            ¬ reprIn (a.unsigned || b.unsigned) (a.value + b.value)) ∧
          ∀ r, plus_int_op (a.unsigned || b.unsigned) a b = some r →
            interp (a.unsigned || b.unsigned) r = a.value + b.value)) ∧
    plus_int_op false ⟨2 ^ 63 - 1, false⟩ ⟨1, false⟩ = none ∧
    plus_int_op true ⟨2 ^ 64 - 1, true⟩ ⟨0, true⟩ = some (2 ^ 64 - 1) := by
  refine ⟨?_, by decide, by decide⟩
  rintro ⟨abits, au⟩ ⟨bbits, bu⟩ ha hb
  simp only [U64] at ha hb
  refine ⟨?_, fun r hr => ?_⟩
  · cases au <;> cases bu <;>
      simp [plus_int_op, check_integer_overflow, test_if_sum_overflows_ull,
        IntOperand.value, interp, reprIn, toSigned, U64, U64MAX, I64MAX]
    all_goals try split_ifs
    all_goals try simp_all
    all_goals omega
  · cases au <;> cases bu <;>
      (simp [plus_int_op, check_integer_overflow, test_if_sum_overflows_ull,
         U64, U64MAX, I64MAX, toSigned] at hr
       simp [IntOperand.value, interp, toSigned])
    all_goals try split_ifs at hr
    all_goals try split_ifs
    all_goals try simp_all
    all_goals omega

/-- C7 (amended): `Round` on a Real (double) value with `truncate = false`
rounds to the nearest integer multiple with ties to even (the C library
`rint` semantics): `Round(2.5, 0) = 2` and `Round(-2.5, 0) = -2`; with
`truncate = true` digits are discarded toward zero, so
`Round(2.449, 1, truncate) = 2.4`. -/
theorem C7_round_real_rint_and_truncate :
    round_real_op (5 / 2) 0 false false = 2 ∧
    round_real_op (-(5 / 2)) 0 false false = -2 ∧
    round_real_op (2449 / 1000) 1 false true = 12 / 5 := by
  refine ⟨?_, ?_, ?_⟩ <;>
    norm_num [round_real_op, my_double_round, rint, DBL_OVERFLOW, abs_lt]

/-! ## Rounding idempotence -/


theorem my_decimal_round_q_idem (x : ℚ) (d : Int) (t : Bool) :
    my_decimal_round_q (my_decimal_round_q x d t) d t = my_decimal_round_q x d t := by
  have hT : (0 : ℚ) < 10 ^ d := zpow_pos (by norm_num) d
  have hT' : (10 : ℚ) ^ d ≠ 0 := ne_of_gt hT
  unfold my_decimal_round_q
  cases t
  · simp only [Bool.false_eq_true, if_false]
    by_cases hx : 0 ≤ x
    · rw [if_pos hx]
      have hxt : 0 ≤ x * 10 ^ d := mul_nonneg hx hT.le
      have hm : (0 : ℤ) ≤ ⌊x * 10 ^ d + 1 / 2⌋ := Int.floor_nonneg.mpr (by linarith)
      have hy : 0 ≤ (⌊x * 10 ^ d + 1 / 2⌋ : ℚ) / 10 ^ d :=
        div_nonneg (by exact_mod_cast hm) hT.le
      rw [if_pos hy, div_mul_cancel₀ _ hT', Int.floor_int_add]
      norm_num
    · rw [if_neg hx]
      push_neg at hx
      have hxt : x * 10 ^ d ≤ 0 := mul_nonpos_of_nonpos_of_nonneg hx.le hT.le
      have hm : ⌈x * 10 ^ d - 1 / 2⌉ ≤ (0 : ℤ) := Int.ceil_le.mpr (by push_cast; linarith)
      by_cases hy : 0 ≤ (⌈x * 10 ^ d - 1 / 2⌉ : ℚ) / 10 ^ d
      · have hy0 : (⌈x * 10 ^ d - 1 / 2⌉ : ℚ) / 10 ^ d = 0 := by
          have : (⌈x * 10 ^ d - 1 / 2⌉ : ℚ) ≤ 0 := by exact_mod_cast hm
          have h2 : (⌈x * 10 ^ d - 1 / 2⌉ : ℚ) / 10 ^ d ≤ 0 :=
            div_nonpos_of_nonpos_of_nonneg this hT.le
          linarith
        rw [if_pos hy, hy0]
        norm_num
      · rw [if_neg hy, div_mul_cancel₀ _ hT',
          show (⌈x * 10 ^ d - 1 / 2⌉ : ℚ) - 1 / 2 =
            -(1 / 2) + (⌈x * 10 ^ d - 1 / 2⌉ : ℚ) by ring,
          Int.ceil_add_int, Int.ceil_neg]
        norm_num
  · simp only [eq_self_iff_true, if_true]
    by_cases hx : 0 ≤ x
    · rw [if_pos hx]
      have hxt : 0 ≤ x * 10 ^ d := mul_nonneg hx hT.le
      have hm : (0 : ℤ) ≤ ⌊x * 10 ^ d⌋ := Int.floor_nonneg.mpr hxt
      have hy : 0 ≤ (⌊x * 10 ^ d⌋ : ℚ) / 10 ^ d :=
        div_nonneg (by exact_mod_cast hm) hT.le
      rw [if_pos hy, div_mul_cancel₀ _ hT', Int.floor_intCast]
    · rw [if_neg hx]
      push_neg at hx
      have hxt : x * 10 ^ d ≤ 0 := mul_nonpos_of_nonpos_of_nonneg hx.le hT.le
      have hm : ⌈x * 10 ^ d⌉ ≤ (0 : ℤ) := Int.ceil_le.mpr (by push_cast; linarith)
      by_cases hy : 0 ≤ (⌈x * 10 ^ d⌉ : ℚ) / 10 ^ d
      · have hy0 : (⌈x * 10 ^ d⌉ : ℚ) / 10 ^ d = 0 := by
          have : (⌈x * 10 ^ d⌉ : ℚ) ≤ 0 := by exact_mod_cast hm
          have h2 : (⌈x * 10 ^ d⌉ : ℚ) / 10 ^ d ≤ 0 :=
            div_nonpos_of_nonpos_of_nonneg this hT.le
          linarith
        rw [if_pos hy, hy0]
        norm_num
      · rw [if_neg hy, div_mul_cancel₀ _ hT', Int.ceil_intCast]

theorem round_decimal_op_idem (nd : Nat) (x : ℚ) (dec : Int) (du t : Bool) :
    round_decimal_op nd (round_decimal_op nd x dec du t) dec du t =
      round_decimal_op nd x dec du t := by
  unfold round_decimal_op
  exact my_decimal_round_q_idem x _ t

theorem rint_intCast (m : ℤ) : rint (m : ℚ) = m := by
  unfold rint
  norm_num [Int.floor_intCast]



theorem my_double_round_idem (x : ℚ) (dec : Int) (du t : Bool) :
    my_double_round (my_double_round x dec du t) dec du t =
      my_double_round x dec du t := by
  set y := my_double_round x dec du t with hy
  simp only [my_double_round] at hy ⊢
  set dnB := (decide (dec < 0) && !du) with hdnB
  set ad := (if dnB = true then -dec else if dec < 0 then dec + 2 ^ 64 else dec).toNat
    with had
  set T : ℚ := 10 ^ ad with hT0
  have hT : (0 : ℚ) < T := by rw [hT0]; positivity
  have hT' : T ≠ 0 := ne_of_gt hT
  by_cases hA : dnB = true ∧ 309 ≤ ad
  · rw [if_pos hA] at hy
    rw [if_pos hA]
    exact hy.symm
  · rw [if_neg hA] at hy ⊢
    by_cases hB : ¬(dnB = true) ∧ (309 ≤ ad ∨ DBL_OVERFLOW ≤ |x * T|)
    · rw [if_pos hB] at hy
      rw [hy, if_pos hB]
    · rw [if_neg hB] at hy
      by_cases hB' : ¬(dnB = true) ∧ (309 ≤ ad ∨ DBL_OVERFLOW ≤ |y * T|)
      · rw [if_pos hB']
      · rw [if_neg hB']
        cases t
        · simp only [Bool.false_eq_true, if_false] at hy ⊢
          by_cases hdec : dec < 0
          · rw [if_pos hdec] at hy ⊢
            rw [hy, mul_div_cancel_right₀ _ hT', rint_intCast]
          · rw [if_neg hdec] at hy ⊢
            rw [hy, div_mul_cancel₀ _ hT', rint_intCast]
        · simp only [eq_self_iff_true, if_true] at hy ⊢
          by_cases hx : 0 ≤ x
          · rw [if_pos hx] at hy
            by_cases hdec : dec < 0
            · rw [if_pos hdec] at hy
              have hn : (0 : ℤ) ≤ ⌊x / T⌋ := Int.floor_nonneg.mpr (div_nonneg hx hT.le)
              have hy0 : 0 ≤ y := by
                rw [hy]
                exact mul_nonneg (by exact_mod_cast hn) hT.le
              rw [if_pos hy0, if_pos hdec, hy, mul_div_cancel_right₀ _ hT',
                Int.floor_intCast]
            · rw [if_neg hdec] at hy
              have hn : (0 : ℤ) ≤ ⌊x * T⌋ := Int.floor_nonneg.mpr (mul_nonneg hx hT.le)
              have hy0 : 0 ≤ y := by
                rw [hy]
                exact div_nonneg (by exact_mod_cast hn) hT.le
              rw [if_pos hy0, if_neg hdec, hy, div_mul_cancel₀ _ hT',
                Int.floor_intCast]
          · rw [if_neg hx] at hy
            push_neg at hx
            by_cases hdec : dec < 0
            · rw [if_pos hdec] at hy
              have hn : ⌈x / T⌉ ≤ (0 : ℤ) :=
                Int.ceil_le.mpr (by
                  push_cast
                  exact div_nonpos_of_nonpos_of_nonneg hx.le hT.le)
              have hyle : y ≤ 0 := by
                rw [hy]
                exact mul_nonpos_of_nonpos_of_nonneg (by exact_mod_cast hn) hT.le
              by_cases hy0 : 0 ≤ y
              · have hyz : y = 0 := le_antisymm hyle hy0
                rw [hyz, if_pos le_rfl, if_pos hdec]
                simp
              · rw [if_neg hy0, if_pos hdec, hy, mul_div_cancel_right₀ _ hT',
                  Int.ceil_intCast]
            · rw [if_neg hdec] at hy
              have hn : ⌈x * T⌉ ≤ (0 : ℤ) :=
                Int.ceil_le.mpr (by
                  push_cast
                  exact mul_nonpos_of_nonpos_of_nonneg hx.le hT.le)
              have hyle : y ≤ 0 := by
                rw [hy]
                exact div_nonpos_of_nonpos_of_nonneg (by exact_mod_cast hn) hT.le
              by_cases hy0 : 0 ≤ y
              · have hyz : y = 0 := le_antisymm hyle hy0
                rw [hyz, if_pos le_rfl, if_neg hdec]
                simp
              · rw [if_neg hy0, if_neg hdec, hy, div_mul_cancel₀ _ hT',
                  Int.ceil_intCast]



theorem toSigned_bounds (v : Nat) (hv : v < 2 ^ 64) :
    -(2 ^ 63 : Int) ≤ toSigned v ∧ toSigned v < 2 ^ 63 := by
  unfold toSigned
  split_ifs <;> omega

theorem toSigned_of_lt (n : Nat) (h : n < 2 ^ 63) : toSigned n = n := by
  unfold toSigned
  rw [if_pos h]

theorem toSigned_of_ge (n : Nat) (h : 2 ^ 63 ≤ n) : toSigned n = (n : Int) - 2 ^ 64 := by
  unfold toSigned
  rw [if_neg (by omega)]

theorem toSigned_wrap64 (r : Int) (h1 : -(2 ^ 63 : Int) ≤ r) (h2 : r < 2 ^ 63) :
    toSigned (wrap64 r) = r := by
  unfold toSigned wrap64
  split_ifs <;> omega

theorem wrap64_neg_ofNat (n : Nat) (h1 : 0 < n) (h2 : n ≤ 2 ^ 64) :
    wrap64 (-(n : Int)) = 2 ^ 64 - n := by
  unfold wrap64
  omega

theorem wrap64_ofNat (n : Nat) (h : n < 2 ^ 64) : wrap64 (n : Int) = n := by
  unfold wrap64
  omega

theorem my_unsigned_round_cases (m tp : Nat) (h : m / tp * tp + tp < 2 ^ 64) :
    my_unsigned_round m tp = m / tp * tp ∨
      my_unsigned_round m tp = m / tp * tp + tp := by
  simp only [my_unsigned_round, U64]
  split_ifs
  · exact Or.inl rfl
  · exact Or.inr (Nat.mod_eq_of_lt h)

theorem my_unsigned_round_multiple (q tp : Nat) (h2 : 2 ≤ tp) :
    my_unsigned_round (q * tp) tp = q * tp := by
  unfold my_unsigned_round
  rw [Nat.mul_div_cancel _ (by omega : 0 < tp)]
  rw [if_pos (by omega : q * tp - q * tp < tp / 2)]

theorem tdiv_mul_bounds_nonneg (s tp : Int) (hs : 0 ≤ s) (htp : 0 < tp) :
    0 ≤ s.tdiv tp * tp ∧ s.tdiv tp * tp ≤ s := by
  rw [Int.tdiv_eq_ediv hs htp.le]
  have hmod : 0 ≤ s % tp := Int.emod_nonneg s (ne_of_gt htp)
  have hid : tp * (s / tp) + s % tp = s := Int.ediv_add_emod s tp
  have hqn : 0 ≤ s / tp := Int.ediv_nonneg hs htp.le
  constructor
  · exact mul_nonneg hqn htp.le
  · nlinarith [hid, hmod]

theorem tdiv_mul_bounds_nonpos (s tp : Int) (hs : s ≤ 0) (htp : 0 < tp) :
    s ≤ s.tdiv tp * tp ∧ s.tdiv tp * tp ≤ 0 := by
  have h := tdiv_mul_bounds_nonneg (-s) tp (by omega) htp
  rw [Int.neg_tdiv, neg_mul] at h
  exact ⟨by linarith [h.2], by linarith [h.1]⟩

theorem round_int_op_idem (u t : Bool) (v : Nat) (dec : Int) (du : Bool)
    (hv : v < U64) (hsafe : t = true ∨ RoundIntSafe u v dec du) :
    round_int_op u t (round_int_op u t v dec du) dec du =
      round_int_op u t v dec du := by
  simp only [U64] at hv
  set y := round_int_op u t v dec du with hy
  simp only [round_int_op] at hy ⊢
  by_cases h0 : 0 ≤ dec ∨ du = true
  · rw [if_pos h0] at hy
    rw [if_pos h0]
  · rw [if_neg h0] at hy ⊢
    by_cases h20 : 20 ≤ (-dec).toNat
    · rw [if_pos h20] at hy
      rw [if_pos h20]
      exact hy.symm
    · rw [if_neg h20] at hy ⊢
      push_neg at h0
      obtain ⟨h0dec, hdu⟩ := h0
      have hdec : dec < 0 := by omega
      set ad := (-dec).toNat with had
      set tp := 10 ^ ad with htp0
      have had1 : 1 ≤ ad := by omega
      have htp10 : 10 ≤ tp := by
        rw [htp0]
        calc (10 : Nat) = 10 ^ 1 := (pow_one 10).symm
        _ ≤ 10 ^ ad := Nat.pow_le_pow_right (by norm_num) had1
      cases t
      · -- truncate = false : rounding, needs the margin
        have hsafe' : RoundIntSafe u v dec du := by
          rcases hsafe with h | h
          · exact absurd h (by simp)
          · exact h
        unfold RoundIntSafe at hsafe'
        rw [← had, ← htp0] at hsafe'
        have hmargin : if u = true then v + tp < 2 ^ 64
            else (if v < 2 ^ 63 then v else 2 ^ 64 - v) + tp < 2 ^ 63 := by
          rcases hsafe' with h | h | h | h
          · omega
          · exact absurd h hdu
          · omega
          · exact h
        simp only [Bool.false_eq_true, if_false] at hy ⊢
        cases u
        · -- signed rounding
          simp only [Bool.false_eq_true, if_false, Bool.false_or] at hy ⊢
          simp only [Bool.false_eq_true, if_false] at hmargin
          by_cases hsv : 0 ≤ toSigned v
          · -- nonnegative value
            have hvlt : v < 2 ^ 63 := by
              by_contra hge
              rw [toSigned_of_ge v (by omega)] at hsv
              omega
            rw [if_pos hvlt] at hmargin
            rw [if_pos (decide_eq_true hsv)] at hy
            have hle := Nat.div_mul_le_self v tp
            obtain hc | hc := my_unsigned_round_cases v tp (by omega)
            all_goals
              have hyq : y < 2 ^ 63 := by omega
            all_goals
              have hsy : 0 ≤ toSigned y := by rw [toSigned_of_lt y hyq]; positivity
            all_goals rw [if_pos (decide_eq_true hsy)]
            · rw [hy, hc, my_unsigned_round_multiple _ _ (by omega)]
            · rw [hy, hc, show v / tp * tp + tp = (v / tp + 1) * tp by ring,
                my_unsigned_round_multiple _ _ (by omega)]
          · -- negative value
            have hvge : 2 ^ 63 ≤ v := by
              by_contra hlt
              rw [toSigned_of_lt v (by omega)] at hsv
              exact hsv (by positivity)
            rw [if_neg (by omega : ¬ v < 2 ^ 63)] at hmargin
            rw [if_neg (by simpa using hsv)] at hy
            have hsveq : toSigned v = (v : Int) - 2 ^ 64 := toSigned_of_ge v hvge
            have hm : wrap64 (-toSigned v) = 2 ^ 64 - v := by
              rw [hsveq, show -((v : Int) - 2 ^ 64) = ((2 ^ 64 - v : Nat) : Int) by omega]
              exact wrap64_ofNat _ (by omega)
            rw [hm] at hy
            have hle := Nat.div_mul_le_self (2 ^ 64 - v) tp
            obtain hc | hc := my_unsigned_round_cases (2 ^ 64 - v) tp (by omega)
            all_goals rw [hc] at hy
            · -- r = (2^64 - v) / tp * tp
              by_cases hr0 : (2 ^ 64 - v) / tp * tp = 0
              · rw [hr0] at hy
                have hy0 : y = 0 := by
                  rw [hy, toSigned_of_lt 0 (by norm_num)]
                  simp [wrap64]
                rw [hy0]
                rw [if_pos (decide_eq_true (by
                  rw [toSigned_of_lt 0 (by norm_num)]
                  norm_num))]
                rw [show (0 : Nat) = 0 * tp by ring, my_unsigned_round_multiple _ _ (by omega)]
              · have hrlt : (2 ^ 64 - v) / tp * tp < 2 ^ 63 := by omega
                have hyv : y = 2 ^ 64 - (2 ^ 64 - v) / tp * tp := by
                  rw [hy, toSigned_of_lt _ hrlt,
                    wrap64_neg_ofNat _ (by omega) (by omega)]
                have hyge : 2 ^ 63 ≤ y := by omega
                have hsy : toSigned y = (y : Int) - 2 ^ 64 := toSigned_of_ge y (by omega)
                rw [if_neg (by
                  simp only [decide_eq_true_eq]
                  rw [hsy]
                  omega)]
                have hm2 : wrap64 (-toSigned y) = 2 ^ 64 - y := by
                  rw [hsy, show -((y : Int) - 2 ^ 64) = ((2 ^ 64 - y : Nat) : Int) by omega]
                  exact wrap64_ofNat _ (by omega)
                rw [hm2]
                have h2y : 2 ^ 64 - y = (2 ^ 64 - v) / tp * tp := by omega
                rw [h2y, my_unsigned_round_multiple _ _ (by omega),
                  toSigned_of_lt _ hrlt, wrap64_neg_ofNat _ (by omega) (by omega), ← hyv]
            · -- r = (2^64 - v) / tp * tp + tp
              have hrpos : 0 < (2 ^ 64 - v) / tp * tp + tp := by omega
              have hrlt : (2 ^ 64 - v) / tp * tp + tp < 2 ^ 63 := by omega
              have hyv : y = 2 ^ 64 - ((2 ^ 64 - v) / tp * tp + tp) := by
                rw [hy, toSigned_of_lt _ hrlt,
                  wrap64_neg_ofNat _ (by omega) (by omega)]
              have hyge : 2 ^ 63 ≤ y := by omega
              have hsy : toSigned y = (y : Int) - 2 ^ 64 := toSigned_of_ge y (by omega)
              rw [if_neg (by
                simp only [decide_eq_true_eq]
                rw [hsy]
                omega)]
              have hm2 : wrap64 (-toSigned y) = 2 ^ 64 - y := by
                rw [hsy, show -((y : Int) - 2 ^ 64) = ((2 ^ 64 - y : Nat) : Int) by omega]
                exact wrap64_ofNat _ (by omega)
              rw [hm2]
              have h2y : 2 ^ 64 - y = ((2 ^ 64 - v) / tp + 1) * tp := by
                have : (2 ^ 64 - v) / tp * tp + tp = ((2 ^ 64 - v) / tp + 1) * tp := by ring
                omega
              rw [h2y, my_unsigned_round_multiple _ _ (by omega)]
              have h2y' : ((2 ^ 64 - v) / tp + 1) * tp = 2 ^ 64 - y := h2y.symm
              rw [show ((2 ^ 64 - v) / tp + 1) * tp = (2 ^ 64 - v) / tp * tp + tp by ring,
                toSigned_of_lt _ hrlt, wrap64_neg_ofNat _ (by omega) (by omega), ← hyv]
        · -- unsigned rounding
          simp only [Bool.true_or, if_true] at hy ⊢
          simp only [eq_self_iff_true, if_true] at hmargin
          have hle := Nat.div_mul_le_self v tp
          obtain hc | hc := my_unsigned_round_cases v tp (by omega)
          · rw [hy, hc, my_unsigned_round_multiple _ _ (by omega)]
          · rw [hy, hc, show v / tp * tp + tp = (v / tp + 1) * tp by ring,
              my_unsigned_round_multiple _ _ (by omega)]
      · -- truncate = true
        simp only [eq_self_iff_true, if_true] at hy ⊢
        cases u
        · -- signed truncate
          simp only [Bool.false_eq_true, if_false] at hy ⊢
          have hsb := toSigned_bounds v hv
          have htpi : (0 : Int) < (tp : Int) := by exact_mod_cast (by omega : 0 < tp)
          have hr : -(2 ^ 63 : Int) ≤ (toSigned v).tdiv tp * tp ∧
              (toSigned v).tdiv tp * tp < 2 ^ 63 := by
            rcases le_or_lt 0 (toSigned v) with hs | hs
            · have := tdiv_mul_bounds_nonneg (toSigned v) tp hs htpi
              constructor <;> [linarith [this.1]; linarith [this.2, hsb.2]]
            · have := tdiv_mul_bounds_nonpos (toSigned v) tp hs.le htpi
              constructor <;> [linarith [this.1, hsb.1]; linarith [this.2]]
          rw [hy, toSigned_wrap64 _ hr.1 hr.2,
            Int.mul_tdiv_cancel _ (ne_of_gt htpi)]
        · -- unsigned truncate
          simp only [eq_self_iff_true, if_true] at hy ⊢
          rw [hy, Nat.mul_div_cancel _ (by omega : 0 < tp)]


/-- C8 counterexample: Round is not idempotent in the Integer category at
the 64-bit boundary: rounding `u64::MAX` to tens wraps around
(`my_unsigned_round`'s `tmp + to` overflows `ulonglong`) and yields 4, and
rounding 4 to tens yields 0, not 4. -/
theorem C8_counterexample :
    round_int_op true false (round_int_op true false (2 ^ 64 - 1) (-1) false) (-1)
        false ≠
      round_int_op true false (2 ^ 64 - 1) (-1) false := by decide

/-- C8 (amended): Round is idempotent in every category — for Real (doubles
modelled as exact rationals) and Decimal unconditionally, and for Integer
whenever truncating, or otherwise under the no-wraparound margin
`RoundIntSafe` (decimals non-negative or unsigned, or at least 20, or the
value at least `10^|decimals|` away from its 64-bit range boundary); at the
boundary itself the Integer rounding wraps and idempotence fails. -/
theorem C8_round_idempotent_with_margin :
    (∀ (u t du : Bool) (v : Nat) (dec : Int),
        v < U64 → (t = true ∨ RoundIntSafe u v dec du) →
        round_int_op u t (round_int_op u t v dec du) dec du =
          round_int_op u t v dec du) ∧
    (∀ (x : ℚ) (dec : Int) (du t : Bool),
        my_double_round (my_double_round x dec du t) dec du t =
          my_double_round x dec du t) ∧
    (∀ (nd : Nat) (x : ℚ) (dec : Int) (du t : Bool),
        round_decimal_op nd (round_decimal_op nd x dec du t) dec du t =
          round_decimal_op nd x dec du t) :=
  ⟨fun u t du v dec hv hs => round_int_op_idem u t v dec du hv hs,
    my_double_round_idem, round_decimal_op_idem⟩

/-- Witness for C8 at the signed value 12345 rounded to hundreds. -/
theorem C8_round_idempotent_with_margin_witness :
    (12345 : Nat) < U64 ∧ RoundIntSafe false 12345 (-2) false ∧
    round_int_op false false (round_int_op false false 12345 (-2) false) (-2) false =
      round_int_op false false 12345 (-2) false :=
  ⟨by decide, by unfold RoundIntSafe; decide,
    C8_round_idempotent_with_margin.1 false false false 12345 (-2) (by decide)
      (Or.inr (by unfold RoundIntSafe; decide))⟩

/-- Witness for C2 at the unsigned operands 5 and 7. -/
theorem C2_plus_int_op_overflow_iff_witness :
    (5 : Nat) < U64 ∧
    ((plus_int_op true ⟨5, true⟩ ⟨7, true⟩ = none ↔ ¬ reprIn true (5 + 7)) ∧
      ∀ r, plus_int_op true ⟨5, true⟩ ⟨7, true⟩ = some r → interp true r = 5 + 7) :=
  ⟨by decide,
    C2_plus_int_op_overflow_iff.1 ⟨5, true⟩ ⟨7, true⟩ (by decide) (by decide)⟩

end ItemFunc
